import Mathlib

/-!
Verification of the velocitree generative simulation engine
(src/velocitree/speciation/generative.py and regression.py) against its
natural-language specification.

The pure data mechanics (tree structure, pairwise distances, the pairwise
observation table, the clade partitioner) are embedded over `Nat`/`ℚ` so
that every definition is executable.  Floating-point behaviour of the
regression/logit stage is embedded over `ℝ` (with an explicit extended
value type mirroring the IEEE special values numpy produces where that
matters).  External library calls (toytree's node distance and the
birth–death tree generator, numpy's generators) are modelled from their
documented behaviour and are marked as such in doc comments.
-/

/-- A rooted tree in the toytree index convention: tips are numbered
`0..ntips-1`, internal nodes follow, every parent has a larger index than
each of its children, and `root` is the root node's index.  `parents.get? i`
is the parent of node `i` (`none` for the root), `childrenL.get? i` the list
of direct children of node `i`, and `blens.get? i` the length of the edge
from node `i` to its parent. -/
structure PTree where
  ntips : Nat
  root : Nat
  parents : List (Option Nat)
  childrenL : List (List Nat)
  blens : List ℚ
deriving DecidableEq, Repr

namespace PTree

/-- Number of nodes of the tree. -/
def nnodes (t : PTree) : Nat := t.parents.length

/-- Parent lookup; `none` for the root or out-of-range indices. -/
def parentOf (t : PTree) (i : Nat) : Option Nat := (t.parents.get? i).getD none

/-- Children lookup; `[]` for tips or out-of-range indices. -/
def childrenOf (t : PTree) (i : Nat) : List Nat := (t.childrenL.get? i).getD []

/-- Branch length of the edge above node `i` (0 for out-of-range). -/
def blenOf (t : PTree) (i : Nat) : ℚ := (t.blens.get? i).getD 0

/-- The chain of ancestors of node `i`, starting at `i` itself and ending at
the root, computed with explicit fuel (`nnodes` steps always suffice since
parent indices strictly increase in the toytree convention). -/
def chainF (t : PTree) : Nat → Nat → List Nat
  | 0, i => [i]
  | fuel + 1, i =>
    match t.parentOf i with
    | none => [i]
    | some p => i :: chainF t fuel p

/-- Ancestor chain of node `i` (node itself up to the root). -/
def chain (t : PTree) (i : Nat) : List Nat := chainF t t.nnodes i

/-- Sum of the branch lengths of the edges above exactly those nodes that
lie on `a`'s ancestor chain but not on `b`'s. -/
def hangSum (t : PTree) (a b : Nat) : ℚ :=
  (((t.chain a).filter (fun x => !((t.chain b).contains x))).map t.blenOf).sum

end PTree

/-- Modelled from the documented behaviour of the external library call
`tree.treenode.get_distance(node_a, node_b)` used by `get_dist`
(generative.py:228-237): the patristic distance, i.e. the sum of branch
lengths along the unique path connecting the two nodes through their most
recent common ancestor.  The path consists of the edges above the nodes
that are ancestors of exactly one of the two endpoints. -/
def get_dist (t : PTree) (idx0 idx1 : Nat) : ℚ :=
  t.hangSum idx0 idx1 + t.hangSum idx1 idx0

namespace PTree

/-- Distance from node `i` up to the root: total branch length of its
ancestor chain (the root edge contributes nothing for well-formed input
since the root's stored branch length is 0). -/
def distToRoot (t : PTree) (i : Nat) : ℚ := ((t.chain i).map t.blenOf).sum

/-- Height of the tree: the largest tip-to-root distance.  Used to model
`toytree.mod.node_scale_root_height(1.0)`. -/
def height (t : PTree) : ℚ :=
  ((List.range t.ntips).map t.distToRoot).foldr max 0

end PTree

/-- Modelled from `toytree.mod.node_scale_root_height(1.0)` as invoked in
`GenerativeBase.__init__` (generative.py:30): every branch length is
multiplied by `1.0 / current root height` so that the root height becomes
1. -/
def scaleTree (t : PTree) : PTree :=
  { t with blens := t.blens.map (fun b => b * (1 / t.height)) }

/-- `get_dist` is symmetric in its two node arguments. -/
theorem get_dist_symm (t : PTree) (a b : Nat) :
    get_dist t a b = get_dist t b a := by
  unfold get_dist
  exact add_comm _ _

/-- `get_dist` of a node with itself is 0. -/
theorem get_dist_self (t : PTree) (a : Nat) :
    get_dist t a a = 0 := by
  unfold get_dist PTree.hangSum
  have h : (t.chain a).filter (fun x => !((t.chain a).contains x)) = [] := by
    rw [List.filter_eq_nil_iff]
    intro x hx
    simp [List.elem_eq_mem, hx]
  rw [h]
  simp

/-- Modelled from the hard-coded call in `RandomTree.get_bd_tree`
(generative.py:199-206): the external generator `toytree.rtree.bdtree` is
abstracted as a function of `(ntips, seed)`, and the method invokes it with
the literal seed 666, ignoring everything else about the run. -/
def get_bd_tree (bdtree : Nat → Nat → PTree) (ntips : Nat) : PTree :=
  bdtree ntips 666

/-- The tree stored by `RandomTree.__init__` (generative.py:183-196) as a
function of the constructor arguments that could influence it: the
caller-supplied run seed is never passed to the tree generator. -/
def randomTreeTree (bdtree : Nat → Nat → PTree) (ntips : Nat)
    (seed : Option Int) : PTree :=
  match seed with
  | _ => get_bd_tree bdtree ntips

/-- C10: For every ntips and any two seeds s1 and s2, the random-tree
constructor produces the identical birth-death tree; the generated tree
depends only on ntips because `toytree.rtree.bdtree` is invoked with the
hard-coded seed 666, independent of the caller-supplied run seed. -/
theorem randomTree_tree_seed_independent :
    (∀ (bdtree : Nat → Nat → PTree) (ntips : Nat) (s1 s2 : Option Int),
      randomTreeTree bdtree ntips s1 = randomTreeTree bdtree ntips s2) ∧
    (∀ (bdtree : Nat → Nat → PTree) (ntips : Nat) (s : Option Int),
      randomTreeTree bdtree ntips s = bdtree ntips 666) := by
  exact ⟨fun _ _ _ _ => rfl, fun _ _ _ => rfl⟩

/-- Python-level error kinds raised by the code paths embedded here (the
repository defines no custom exception classes). -/
inductive PyErr where
  | valueError
  | keyError
deriving DecidableEq, Repr

/-- A row of the pairwise observation table built by `get_crosses` /
`get_velocities` (generative.py:61-76, 110-128): the two tip indices and
the recorded genetic distance. -/
structure ORow where
  sidx0 : Nat
  sidx1 : Nat
  dist : ℚ
deriving DecidableEq, Repr

/-- `itertools.combinations(range(n), 2)`: all pairs `(i, j)` with
`i < j < n`, in lexicographic order. -/
def pairsList (n : Nat) : List (Nat × Nat) :=
  (List.range n).flatMap
    (fun i => ((List.range n).filter (fun j => i < j)).map (fun j => (i, j)))

/-- `GenerativeBase.get_crosses` (generative.py:61-76): one row per
2-combination of tips, with `dist` set to the patristic distance divided
by 2.  The tuple unpacking `tipsa, tipsb = zip(*...)` raises a ValueError
when the combination list is empty (fewer than 2 tips). -/
def getCrosses (t : PTree) : Except PyErr (List ORow) :=
  let pairs := pairsList t.ntips
  if pairs.isEmpty then Except.error PyErr.valueError
  else Except.ok (pairs.map (fun p => ⟨p.1, p.2, get_dist t p.1 p.2 / 2⟩))

/-- The `nulls` frame of `GenerativeBase.get_velocities`
(generative.py:116-120): one self-pair row per tip, with distance 0. -/
def nullRows (t : PTree) : List ORow :=
  (List.range t.ntips).map (fun i => ⟨i, i, 0⟩)

/-- The sort key order of `sort_values(by=["sidx0", "sidx1"])`
(generative.py:124-128): ascending lexicographic on the two tip
indices. -/
def rowLe (r s : ORow) : Prop :=
  r.sidx0 < s.sidx0 ∨ (r.sidx0 = s.sidx0 ∧ r.sidx1 ≤ s.sidx1)

instance : DecidableRel rowLe := fun r s => by
  unfold rowLe; infer_instance

instance : IsTotal ORow rowLe := by
  refine ⟨fun a b => ?_⟩
  unfold rowLe
  omega

instance : IsTrans ORow rowLe := by
  refine ⟨fun a b c hab hbc => ?_⟩
  unfold rowLe at hab hbc ⊢
  omega

/-- `DataFrame.sort_values(by=["sidx0", "sidx1"])` on the concatenated
table: a sort by the ascending lexicographic key (the keys of the rows
sorted here are pairwise distinct, so the choice of sorting algorithm is
irrelevant). -/
def sortRows (rows : List ORow) : List ORow :=
  List.insertionSort rowLe rows

/-- The row set of `self.ridata` after `get_crosses` and the
concatenation+sort in `get_velocities` (generative.py:61-76, 116-128). -/
def ridataRows (t : PTree) : Except PyErr (List ORow) :=
  (getCrosses t).map (fun rows => sortRows (rows ++ nullRows t))

/-- The observation-table rows of a simulation run: the stored tree is
first normalized to root height 1 (`GenerativeBase.__init__`,
generative.py:30), then the table is built on the scaled tree. -/
def buildRidata (t : PTree) : Except PyErr (List ORow) :=
  ridataRows (scaleTree t)

theorem pairsList_length (n : Nat) : (pairsList n).length = n * (n - 1) / 2 := by
  have hfilter : ∀ m i : Nat,
      ((List.range m).filter (fun j => decide (i < j))).length = m - (i + 1) := by
    intro m i
    induction m with
    | zero => simp
    | succ m ih =>
      rw [List.range_succ, List.filter_append, List.length_append, ih]
      by_cases h : i < m
      · simp [h]
        omega
      · simp [h]
        omega
  have hbridge : ∀ (f : Nat → Nat) (m : Nat),
      ((List.range m).map f).sum = ∑ i ∈ Finset.range m, f i := by
    intro f m
    induction m with
    | zero => simp
    | succ m ih =>
      rw [List.range_succ, List.map_append, List.sum_append,
        Finset.sum_range_succ, ih]
      simp
  unfold pairsList
  rw [List.length_flatMap]
  simp only [Function.comp_def, List.length_map]
  have hcongr : (List.range n).map
        (fun i => ((List.range n).filter (fun j => decide (i < j))).length) =
      (List.range n).map (fun i => n - 1 - i) := by
    refine List.map_congr_left (fun i _ => ?_)
    rw [hfilter n i]
    omega
  rw [hcongr, hbridge, Finset.sum_range_reflect (fun i => i) n]
  exact Finset.sum_range_id n

/-- C2: After construction, for every tree with ntips tips the pairwise
observation table has exactly `ntips*(ntips-1)/2 + ntips` rows — one row
per unordered pair of distinct tips plus one self-pair per tip with
distance 0 — and its rows are sorted ascending by `(sidx0, sidx1)`. -/
theorem ridata_row_count_and_sorted (t : PTree) (rows : List ORow)
    (h : buildRidata t = Except.ok rows) :
    rows.length = t.ntips * (t.ntips - 1) / 2 + t.ntips ∧
    List.Sorted rowLe rows ∧
    (∀ i, i < t.ntips → (⟨i, i, 0⟩ : ORow) ∈ rows) := by
  have hnt : (scaleTree t).ntips = t.ntips := rfl
  unfold buildRidata ridataRows getCrosses at h
  by_cases hempty : (pairsList (scaleTree t).ntips).isEmpty
  · simp [hempty, Except.map] at h
  · simp only [hempty, if_neg, Bool.false_eq_true, not_false_iff, ite_false,
      Except.map_ok, Except.map] at h
    have hrows : rows = sortRows
        ((pairsList (scaleTree t).ntips).map
          (fun p => (⟨p.1, p.2, get_dist (scaleTree t) p.1 p.2 / 2⟩ : ORow)) ++
          nullRows (scaleTree t)) := by
      cases h
      rfl
    have hperm : rows.Perm
        ((pairsList (scaleTree t).ntips).map
          (fun p => (⟨p.1, p.2, get_dist (scaleTree t) p.1 p.2 / 2⟩ : ORow)) ++
          nullRows (scaleTree t)) := by
      rw [hrows]
      exact List.perm_insertionSort rowLe _
    refine ⟨?_, ?_, ?_⟩
    · rw [hperm.length_eq, List.length_append, List.length_map, pairsList_length,
        hnt]
      unfold nullRows
      rw [List.length_map, List.length_range, hnt]
    · rw [hrows]
      exact List.sorted_insertionSort rowLe _
    · intro i hi
      refine hperm.mem_iff.mpr (List.mem_append_right _ ?_)
      unfold nullRows
      rw [hnt]
      exact List.mem_map.mpr ⟨i, List.mem_range.mpr hi, rfl⟩

/-- A concrete two-tip tree of root height 1 (tips 0 and 1, root 2, both
branch lengths 1/2 + 1/2 scaled: here 1 and 1 with height... the two tip
edges have length 1, so the root height is 1 and scaling is the
identity). -/
def t2 : PTree :=
  { ntips := 2, root := 2,
    parents := [some 2, some 2, none],
    childrenL := [[], [], [0, 1]],
    blens := [1, 1, 0] }

/-- Witness for `ridata_row_count_and_sorted`: on the concrete two-tip
tree `t2` construction succeeds and the table has `2*1/2 + 2 = 3` rows,
sorted, containing both self-pairs. -/
theorem ridata_row_count_and_sorted_witness :
    ([⟨0, 0, 0⟩, ⟨0, 1, 1⟩, ⟨1, 1, 0⟩] : List ORow).length =
      t2.ntips * (t2.ntips - 1) / 2 + t2.ntips ∧
    List.Sorted rowLe [⟨0, 0, 0⟩, ⟨0, 1, 1⟩, ⟨1, 1, 0⟩] ∧
    (∀ i, i < t2.ntips → (⟨i, i, 0⟩ : ORow) ∈
      ([⟨0, 0, 0⟩, ⟨0, 1, 1⟩, ⟨1, 1, 0⟩] : List ORow)) :=
  ridata_row_count_and_sorted t2 [⟨0, 0, 0⟩, ⟨0, 1, 1⟩, ⟨1, 1, 0⟩]
    (by norm_num [buildRidata, ridataRows, getCrosses, pairsList, nullRows,
      sortRows, get_dist, PTree.hangSum, PTree.chain, PTree.chainF,
      PTree.nnodes, PTree.parentOf, PTree.blenOf, scaleTree, PTree.height,
      PTree.distToRoot, t2, List.range_succ, List.insertionSort,
      List.orderedInsert, rowLe, Except.map])

/-- C5 counterexample: on the two-tip tree `t2` the observation table
records distance 1 for the pair (0,1), while the distance oracle computes
the patristic distance 2 — the `dist` column holds half the oracle's
value, not the oracle's value. -/
theorem dist_column_not_oracle_value_cex :
    buildRidata t2 = Except.ok [⟨0, 0, 0⟩, ⟨0, 1, 1⟩, ⟨1, 1, 0⟩] ∧
    get_dist (scaleTree t2) 0 1 = 2 ∧
    (⟨0, 1, 1⟩ : ORow).dist ≠ get_dist (scaleTree t2) 0 1 := by
  refine ⟨?_, ?_, ?_⟩ <;>
    norm_num [buildRidata, ridataRows, getCrosses, pairsList, nullRows,
      sortRows, get_dist, PTree.hangSum, PTree.chain, PTree.chainF,
      PTree.nnodes, PTree.parentOf, PTree.blenOf, scaleTree, PTree.height,
      PTree.distToRoot, t2, List.range_succ, List.insertionSort,
      List.orderedInsert, rowLe, Except.map]

/-- C5 (amended): the oracle distance is symmetric and 0 on self-pairs,
and every row of the observation table records HALF the oracle's
patristic distance on the (height-normalized) tree: self-pairs get
0 (= 0/2) and distinct pairs get `get_dist/2`. -/
theorem dist_column_half_patristic :
    (∀ (t : PTree) (a b : Nat), get_dist t a b = get_dist t b a) ∧
    (∀ (t : PTree) (a : Nat), get_dist t a a = 0) ∧
    (∀ (t : PTree) (rows : List ORow), buildRidata t = Except.ok rows →
      ∀ r ∈ rows, r.dist = get_dist (scaleTree t) r.sidx0 r.sidx1 / 2) := by
  refine ⟨get_dist_symm, get_dist_self, ?_⟩
  intro t rows h r hr
  unfold buildRidata ridataRows getCrosses at h
  by_cases hempty : (pairsList (scaleTree t).ntips).isEmpty
  · simp [hempty, Except.map] at h
  · simp only [hempty, if_neg, Bool.false_eq_true, not_false_iff, ite_false,
      Except.map_ok, Except.map] at h
    have hrows : rows = sortRows
        ((pairsList (scaleTree t).ntips).map
          (fun p => (⟨p.1, p.2, get_dist (scaleTree t) p.1 p.2 / 2⟩ : ORow)) ++
          nullRows (scaleTree t)) := by
      cases h
      rfl
    have hmem : r ∈
        ((pairsList (scaleTree t).ntips).map
          (fun p => (⟨p.1, p.2, get_dist (scaleTree t) p.1 p.2 / 2⟩ : ORow)) ++
          nullRows (scaleTree t)) := by
      refine (List.perm_insertionSort rowLe _).subset ?_
      rw [← sortRows.eq_def, ← hrows]
      exact hr
    rcases List.mem_append.mp hmem with hcross | hnull
    · rcases List.mem_map.mp hcross with ⟨p, _, hp⟩
      rw [← hp]
    · rcases List.mem_map.mp hnull with ⟨i, _, hi⟩
      rw [← hi]
      simp [get_dist_self]

/-- Witness for `dist_column_half_patristic` on the concrete tree `t2`:
the (0,1) row's recorded distance equals half the oracle's value. -/
theorem dist_column_half_patristic_witness :
    (⟨0, 1, 1⟩ : ORow).dist = get_dist (scaleTree t2) 0 1 / 2 :=
  dist_column_half_patristic.2.2 t2 [⟨0, 0, 0⟩, ⟨0, 1, 1⟩, ⟨1, 1, 0⟩]
    (by norm_num [buildRidata, ridataRows, getCrosses, pairsList, nullRows,
      sortRows, get_dist, PTree.hangSum, PTree.chain, PTree.chainF,
      PTree.nnodes, PTree.parentOf, PTree.blenOf, scaleTree, PTree.height,
      PTree.distToRoot, t2, List.range_succ, List.insertionSort,
      List.orderedInsert, rowLe, Except.map])
    ⟨0, 1, 1⟩ (by simp)

/-- Number of direct children of node `i` — the Python sort key
`len(self.tree.idx_dict[x].children)` of `RandomTree.get_clade_idxs`
(generative.py:218). -/
def numChildren (t : PTree) (i : Nat) : Nat := (t.childrenOf i).length

/-- The comparison realized by Python's stable
`sorted(..., key=lambda x: len(children))`: compare the child counts. -/
def childLe (t : PTree) (a b : Nat) : Prop := numChildren t a ≤ numChildren t b

instance (t : PTree) : DecidableRel (childLe t) := fun a b => by
  unfold childLe; infer_instance

instance (t : PTree) : IsTotal Nat (childLe t) := ⟨fun _ _ => Nat.le_total _ _⟩

instance (t : PTree) : IsTrans Nat (childLe t) := ⟨fun _ _ _ => Nat.le_trans⟩

/-- The selection `sorted(self.clade_idxs, key=lambda x: len(...))[0]` in
`RandomTree.get_clade_idxs` (generative.py:216-220): head of the stable
sort by child count (`none` models the IndexError on an empty anchor
list).  Python's sort is stable and `List.insertionSort` is stable, so
ties are broken by the current list order in both. -/
def selectAnchor (t : PTree) (anchors : List Nat) : Option Nat :=
  (List.insertionSort (childLe t) anchors).head?

/-- One iteration of the loop of `RandomTree.get_clade_idxs`
(generative.py:215-224): remove the selected anchor (first occurrence, as
`list.remove`) and append its direct children's indices. -/
def stepAnchors (t : PTree) (anchors : List Nat) : Option (List Nat) :=
  (selectAnchor t anchors).map (fun n => anchors.erase n ++ t.childrenOf n)

/-- `k` iterations of the loop body. -/
def partitionGo (t : PTree) : Nat → List Nat → Option (List Nat)
  | 0, anchors => some anchors
  | k + 1, anchors => (stepAnchors t anchors).bind (partitionGo t k)

/-- `RandomTree.get_clade_idxs` (generative.py:208-224): start from the
root as the single anchor and run the loop `for _ in range(2, nclades+1)`,
i.e. `nclades - 1` times (0 times for `nclades ≤ 1`). -/
def getCladeIdxs (t : PTree) (nclades : Nat) : Option (List Nat) :=
  partitionGo t (nclades - 1) [t.root]

/-- The list of tip indices descending from node `i`, with explicit fuel;
models ete3's `len(node)` (the number of leaves under a node, used by
`get_groups`, generative.py:53) and the spec's expansion of an anchor
into its descendant tip set. -/
def tipsUnderF (t : PTree) : Nat → Nat → List Nat
  | 0, _ => []
  | fuel + 1, i =>
    if t.childrenOf i = [] then [i]
    else (t.childrenOf i).flatMap (tipsUnderF t fuel)

/-- Descendant tip list of node `i` (fuel `i + 1` suffices because child
indices are strictly smaller than their parent's in the toytree
convention). -/
def tipsUnder (t : PTree) (i : Nat) : List Nat := tipsUnderF t (i + 1) i

/-- `GenerativeBase.get_groups` (generative.py:48-59): clade id `i` is
repeated once per leaf under the i-th anchor and the per-clade blocks are
concatenated. -/
def getGroups (t : PTree) (cladeIdxs : List Nat) : List Nat :=
  cladeIdxs.enum.flatMap (fun p => List.replicate (tipsUnder t p.2).length p.1)

/-- Executable check of the toytree index invariant: every child index is
strictly smaller than its parent's. -/
def childBoundB (t : PTree) : Bool :=
  (List.range t.childrenL.length).all
    (fun i => (t.childrenOf i).all (fun c => c < i))

theorem childBound_spec {t : PTree} (h : childBoundB t = true) :
    ∀ i, ∀ c ∈ t.childrenOf i, c < i := by
  intro i c hc
  by_cases hi : i < t.childrenL.length
  · have h1 := List.all_eq_true.mp h i (List.mem_range.mpr hi)
    have h2 := List.all_eq_true.mp h1 c hc
    simpa using h2
  · unfold PTree.childrenOf at hc
    rw [List.get?_eq_none.mpr (Nat.le_of_not_lt hi)] at hc
    simp at hc

theorem tipsUnderF_fuel {t : PTree} (hc : ∀ i, ∀ c ∈ t.childrenOf i, c < i) :
    ∀ i f g, i < f → i < g → tipsUnderF t f i = tipsUnderF t g i := by
  intro i
  induction i using Nat.strong_induction_on with
  | _ i ih =>
    intro f g hf hg
    match f, g with
    | f + 1, g + 1 =>
      unfold tipsUnderF
      by_cases hch : t.childrenOf i = []
      · rw [if_pos hch, if_pos hch]
      · rw [if_neg hch, if_neg hch]
        refine List.flatMap_congr (fun c hcm => ?_)
        have hci := hc i c hcm
        exact ih c hci f g (by omega) (by omega)

theorem tipsUnder_expand {t : PTree} (hc : ∀ i, ∀ c ∈ t.childrenOf i, c < i)
    {n : Nat} (hn : t.childrenOf n ≠ []) :
    tipsUnder t n = (t.childrenOf n).flatMap (tipsUnder t) := by
  unfold tipsUnder
  show tipsUnderF t (n + 1) n = _
  unfold tipsUnderF
  rw [if_neg hn]
  refine List.flatMap_congr (fun c hcm => ?_)
  have hci := hc n c hcm
  exact tipsUnderF_fuel hc c n (c + 1) hci (Nat.lt_succ_self c)

theorem selectAnchor_spec {t : PTree} {anchors : List Nat} {a : Nat}
    (h : selectAnchor t anchors = some a) :
    a ∈ anchors ∧ ∀ b ∈ anchors, numChildren t a ≤ numChildren t b := by
  unfold selectAnchor at h
  have hsorted := List.sorted_insertionSort (childLe t) anchors
  have hperm := List.perm_insertionSort (childLe t) anchors
  match hs : List.insertionSort (childLe t) anchors with
  | [] => rw [hs] at h; simp at h
  | x :: rest =>
    rw [hs] at h
    have hxa : x = a := by simpa using h
    subst hxa
    rw [hs] at hsorted hperm
    refine ⟨hperm.mem_iff.mp (List.mem_cons_self x rest), fun b hb => ?_⟩
    rcases List.mem_cons.mp (hperm.mem_iff.mpr hb) with hba | hbrest
    · rw [hba]
    · exact List.rel_of_sorted_cons hsorted b hbrest

/-- Executable trace predicate: each of the `k` selections of the
partition loop picks an anchor whose node index satisfies `p`. -/
def selOkB (t : PTree) (p : Nat → Bool) : Nat → List Nat → Bool
  | 0, _ => true
  | k + 1, anchors =>
    match selectAnchor t anchors with
    | none => false
    | some n => p n && selOkB t p k (anchors.erase n ++ t.childrenOf n)

theorem partitionGo_length {t : PTree} :
    ∀ (k : Nat) (anchors res : List Nat),
      selOkB t (fun n => numChildren t n == 2) k anchors = true →
      partitionGo t k anchors = some res →
      res.length = anchors.length + k := by
  intro k
  induction k with
  | zero =>
    intro anchors res _ h
    unfold partitionGo at h
    have : anchors = res := by simpa using h
    rw [this]
    omega
  | succ k ih =>
    intro anchors res hok hrun
    unfold partitionGo stepAnchors at hrun
    unfold selOkB at hok
    match hsel : selectAnchor t anchors with
    | none => rw [hsel] at hok; simp at hok
    | some n =>
      rw [hsel] at hok hrun
      simp only [Option.map_some', Option.some_bind] at hrun
      simp only [Bool.and_eq_true, beq_iff_eq] at hok
      have hmem := (selectAnchor_spec hsel).1
      have hlen := ih _ res hok.2 hrun
      have herase := List.length_erase_add_one hmem
      rw [hlen, List.length_append]
      unfold numChildren at hok
      omega

theorem partitionGo_cover {t : PTree}
    (hc : ∀ i, ∀ c ∈ t.childrenOf i, c < i) :
    ∀ (k : Nat) (anchors res : List Nat),
      selOkB t (fun n => !(t.childrenOf n).isEmpty) k anchors = true →
      partitionGo t k anchors = some res →
      (res.flatMap (tipsUnder t)).Perm (anchors.flatMap (tipsUnder t)) := by
  intro k
  induction k with
  | zero =>
    intro anchors res _ h
    unfold partitionGo at h
    have : anchors = res := by simpa using h
    rw [this]
  | succ k ih =>
    intro anchors res hok hrun
    unfold partitionGo stepAnchors at hrun
    unfold selOkB at hok
    match hsel : selectAnchor t anchors with
    | none => rw [hsel] at hok; simp at hok
    | some n =>
      rw [hsel] at hok hrun
      simp only [Option.map_some', Option.some_bind] at hrun
      simp only [Bool.and_eq_true] at hok
      have hmem := (selectAnchor_spec hsel).1
      have hne : t.childrenOf n ≠ [] := by
        intro hnil
        rw [hnil] at hok
        simp at hok
      have hstep : ((anchors.erase n ++ t.childrenOf n).flatMap
          (tipsUnder t)).Perm (anchors.flatMap (tipsUnder t)) := by
        have hpe : anchors.Perm (n :: anchors.erase n) :=
          List.perm_cons_erase hmem
        rw [List.flatMap_append, ← tipsUnder_expand hc hne]
        refine List.perm_append_comm.trans ?_
        rw [← List.flatMap_cons]
        exact (hpe.flatMap_right _).symm
      exact (ih _ res hok.2 hrun).trans hstep

/-- C3 (amended): provided the tree satisfies the toytree index invariant,
its root's descendant tip list covers the tips exactly once, and every
anchor selected during the `nclades-1` expansion steps has at least one
child, the descendant tip sets of the final anchors assign every tip to
exactly one clade (no overlaps, no gaps; the clade ids produced by
`get_groups` are the anchor positions 0, 1, ...), and `get_groups`
produces one group entry per tip.  Without the selection condition a
childless (leaf) anchor can be selected and silently dropped, losing its
tip (see the counterexample). -/
theorem clade_partition_covers_tips (t : PTree) (n : Nat) (res : List Nat)
    (hcb : childBoundB t = true)
    (hroot : (tipsUnder t t.root).Perm (List.range t.ntips))
    (hok : selOkB t (fun m => !(t.childrenOf m).isEmpty) (n - 1) [t.root] = true)
    (hres : getCladeIdxs t n = some res) :
    (res.flatMap (tipsUnder t)).Perm (List.range t.ntips) ∧
    (getGroups t res).length = t.ntips := by
  have hc := childBound_spec hcb
  have h1 := partitionGo_cover hc (n - 1) [t.root] res hok hres
  have h2 : (([t.root].flatMap (tipsUnder t))).Perm (List.range t.ntips) := by
    simpa using hroot
  have hperm := h1.trans h2
  refine ⟨hperm, ?_⟩
  have hlen : (getGroups t res).length = (res.flatMap (tipsUnder t)).length := by
    unfold getGroups
    rw [List.length_flatMap, List.length_flatMap]
    simp only [Function.comp_def, List.length_replicate]
    rw [show res.enum.map (fun p => (tipsUnder t p.2).length) =
        res.enum.map ((fun j => (tipsUnder t j).length) ∘ Prod.snd) from rfl,
      ← List.map_map, List.enum_map_snd]
  rw [hlen, hperm.length_eq, List.length_range]

/-- C4 (amended): the partition loop starts from the root singleton,
performs exactly `nclades-1` steps; each step selects an anchor with the
fewest children (ties broken by the anchors' current list order, since
Python's `sorted` is stable — not by ascending node index), removes it
and appends its direct children's indices.  `partition(tree, 1)` returns
the root alone.  The loop terminates with exactly `nclades` anchors
provided every selected anchor has exactly two children (as in the binary
birth-death trees the code generates); a selected leaf is dropped without
replacement and lowers the final count. -/
theorem clade_partition_greedy_behaviour :
    (∀ (t : PTree) (anchors : List Nat) (a : Nat),
      selectAnchor t anchors = some a →
      a ∈ anchors ∧ ∀ b ∈ anchors, numChildren t a ≤ numChildren t b) ∧
    (∀ t : PTree, getCladeIdxs t 1 = some [t.root]) ∧
    (∀ (t : PTree) (n : Nat) (res : List Nat), 1 ≤ n →
      selOkB t (fun m => numChildren t m == 2) (n - 1) [t.root] = true →
      getCladeIdxs t n = some res → res.length = n) := by
  refine ⟨fun t anchors a h => selectAnchor_spec h, fun t => rfl, ?_⟩
  intro t n res hn hok hres
  have := partitionGo_length (n - 1) [t.root] res hok hres
  rw [this]
  simp
  omega

/-- Stated from the claim's words (C4), for comparison with the source's
`getCladeIdxs`: fewest children first, ties broken by ascending node
index. -/
def specLe (t : PTree) (a b : Nat) : Prop :=
  numChildren t a < numChildren t b ∨
    (numChildren t a = numChildren t b ∧ a ≤ b)

instance (t : PTree) : DecidableRel (specLe t) := fun a b => by
  unfold specLe; infer_instance

/-- Stated from the claim's words (C4): the selection with the
ascending-node-index tie-break. -/
def selectAnchorSpec (t : PTree) (anchors : List Nat) : Option Nat :=
  (List.insertionSort (specLe t) anchors).head?

/-- Stated from the claim's words (C4): one expansion step under the
claimed tie-break. -/
def stepAnchorsSpec (t : PTree) (anchors : List Nat) : Option (List Nat) :=
  (selectAnchorSpec t anchors).map (fun n => anchors.erase n ++ t.childrenOf n)

/-- Stated from the claim's words (C4): `k` expansion steps under the
claimed tie-break. -/
def partitionGoSpec (t : PTree) : Nat → List Nat → Option (List Nat)
  | 0, anchors => some anchors
  | k + 1, anchors => (stepAnchorsSpec t anchors).bind (partitionGoSpec t k)

/-- Stated from the claim's words (C4): the full partition under the
claimed tie-break. -/
def getCladeIdxsSpec (t : PTree) (nclades : Nat) : Option (List Nat) :=
  partitionGoSpec t (nclades - 1) [t.root]

/-- A 4-tip caterpillar tree in the toytree index convention: root 6 with
children (tip 0, node 5), node 5 with children (tip 1, node 4), node 4
with children (tips 2, 3). -/
def t4cat : PTree :=
  { ntips := 4, root := 6,
    parents := [some 6, some 5, some 4, some 4, some 5, some 6, none],
    childrenL := [[], [], [], [], [2, 3], [1, 4], [0, 5]],
    blens := [3, 2, 1, 1, 1, 1, 0] }

/-- A balanced 8-tip tree in the toytree index convention. -/
def t8 : PTree :=
  { ntips := 8, root := 14,
    parents := [some 8, some 8, some 9, some 9, some 10, some 10, some 11,
      some 11, some 12, some 12, some 13, some 13, some 14, some 14, none],
    childrenL := [[], [], [], [], [], [], [], [],
      [0, 1], [2, 3], [4, 5], [6, 7], [8, 9], [10, 11], [12, 13]],
    blens := [1, 1, 1, 1, 1, 1, 1, 1, 1, 1, 1, 1, 1, 1, 0] }

/-- A balanced 4-tip tree in the toytree index convention. -/
def t4bal : PTree :=
  { ntips := 4, root := 6,
    parents := [some 4, some 4, some 5, some 5, some 6, some 6, none],
    childrenL := [[], [], [], [], [0, 1], [2, 3], [4, 5]],
    blens := [1, 1, 1, 1, 1, 1, 0] }

/-- C3 counterexample: on the 4-tip caterpillar `t4cat`, `nclades = 3` is
valid (the tree has exactly 3 internal nodes), yet the partitioner ends
with the single anchor 5, whose descendant tips are {1,2,3}: tip 0 is
assigned to no clade. -/
theorem clade_partition_gap_cex :
    ((List.range t4cat.nnodes).filter
      (fun i => !(t4cat.childrenOf i).isEmpty)).length = 3 ∧
    getCladeIdxs t4cat 3 = some [5] ∧
    tipsUnder t4cat 5 = [1, 2, 3] ∧
    0 < t4cat.ntips ∧
    0 ∉ ([5] : List Nat).flatMap (tipsUnder t4cat) := by
  decide

/-- C4 counterexample: (a) on `t4cat` with `nclades = 3` the loop ends
with 1 anchor, not 3 (a leaf anchor was selected and dropped); (b) on the
balanced `t8` with `nclades = 4` the stable list-order tie-break of the
code selects anchor 13 where the claimed ascending-node-index tie-break
would select 8, so the two procedures produce different anchor sets. -/
theorem clade_partition_claim_cex :
    getCladeIdxs t4cat 3 = some [5] ∧
    ([5] : List Nat).length = 1 ∧
    getCladeIdxs t8 4 = some [8, 9, 10, 11] ∧
    getCladeIdxsSpec t8 4 = some [13, 9, 0, 1] ∧
    ([8, 9, 10, 11] : List Nat) ≠ [13, 9, 0, 1] := by
  decide

/-- Witness for `clade_partition_covers_tips`: on the balanced 4-tip tree
with `nclades = 2` the anchors are [4, 5] and their tip sets cover the 4
tips exactly once. -/
theorem clade_partition_covers_tips_witness :
    ((([4, 5] : List Nat).flatMap (tipsUnder t4bal)).Perm
      (List.range t4bal.ntips)) ∧
    (getGroups t4bal [4, 5]).length = t4bal.ntips :=
  clade_partition_covers_tips t4bal 2 [4, 5] (by decide) (by decide)
    (by decide) (by decide)

/-- Witness for `clade_partition_greedy_behaviour`: on the balanced 4-tip
tree with `nclades = 2` (all selected anchors binary) the final anchor
count is 2. -/
theorem clade_partition_greedy_behaviour_witness :
    ([4, 5] : List Nat).length = 2 :=
  clade_partition_greedy_behaviour.2.2 t4bal 2 [4, 5] (by decide) (by decide)
    (by decide)

/-- The generator a random draw goes through: the run's seeded
`np.random.default_rng(seed)` instance (generative.py:27) or the
process-global numpy generator. -/
inductive RngSrc where
  | owned
  | globalG
deriving DecidableEq, Repr

/-- One random draw made by a simulation run: its call site and the
generator it uses. -/
structure DrawEvent where
  site : String
  src : RngSrc
deriving DecidableEq, Repr

/-- The random draws made during `GenerativeBase.__init__`
(generative.py:24-46), in pipeline order: the parameter draws happen only
in random mode (`get_true_param_dists`, generative.py:83-90, one uniform
for beta and one uniform/one absolute normal per clade, all via
`self.rng`), then the per-species trait draw (`get_species_data`,
generative.py:102-108, one vectorized `self.rng.normal`), then the
joint-velocity draw (`get_velocities`, generative.py:134-140, one
vectorized `self.rng.normal`). -/
def initDraws (randomMode : Bool) (nclades : Nat) : List DrawEvent :=
  (if randomMode then
    [⟨"self.rng.uniform(3, 5)", RngSrc.owned⟩] ++
    List.replicate nclades ⟨"self.rng.uniform(0, 2)", RngSrc.owned⟩ ++
    List.replicate nclades ⟨"self.rng.normal(0, 1)", RngSrc.owned⟩
  else []) ++
  [⟨"self.rng.normal(psi_means, psi_stds)", RngSrc.owned⟩,
   ⟨"self.rng.normal(beta + psi0 + psi1)", RngSrc.owned⟩]

/-- The random draws made by `GenerativeBase.sample_observations`
(generative.py:160-168): the Bernoulli RI outcome draw goes through
`np.random.binomial` — the process-global numpy generator, not
`self.rng` — and when a subsample size is requested the row selection of
`DataFrame.sample` also uses the process-global generator (no
`random_state` argument is passed). -/
def sampleDraws (subsample : Bool) : List DrawEvent :=
  [⟨"np.random.binomial(1, expit)", RngSrc.globalG⟩] ++
  (if subsample then [⟨"self.ridata.sample(nsamples)", RngSrc.globalG⟩]
   else [])

/-- All random draws of a full simulation run that draws outcomes. -/
def runDraws (randomMode : Bool) (nclades : Nat) (subsample : Bool) :
    List DrawEvent :=
  initDraws randomMode nclades ++ sampleDraws subsample

/-- C1 counterexample: a run (fixed-parameter mode, 2 clades, with an
outcome/subsample request) makes draws through the process-global
generator, so not every draw goes through the run-owned seeded
generator. -/
theorem run_uses_global_rng_cex :
    (⟨"np.random.binomial(1, expit)", RngSrc.globalG⟩ : DrawEvent) ∈
      runDraws false 2 true ∧
    ((runDraws false 2 true).all (fun e => e.src == RngSrc.owned)) = false := by
  decide

/-- C1 (amended): every random draw made during base construction
(parameter draws, per-species trait draws, joint-velocity draws) goes
through the run-owned seeded generator, but the Bernoulli RI outcome draw
and the subsample row selection of `sample_observations` go through the
process-global numpy generator, so bit-identical outputs across two
equally-seeded runs are not guaranteed once outcomes are drawn. -/
theorem construction_draws_owned_outcome_draws_global :
    (∀ (randomMode : Bool) (nclades : Nat),
      ∀ e ∈ initDraws randomMode nclades, e.src = RngSrc.owned) ∧
    (∀ subsample : Bool,
      ∀ e ∈ sampleDraws subsample, e.src = RngSrc.globalG) := by
  constructor
  · intro rm ncl e he
    unfold initDraws at he
    rcases List.mem_append.mp he with h1 | h2
    · by_cases hrm : rm = true
      · rw [if_pos hrm] at h1
        rcases List.mem_append.mp h1 with h3 | h4
        · rcases List.mem_append.mp h3 with h5 | h6
          · rw [List.mem_singleton.mp h5]
          · rw [List.eq_of_mem_replicate h6]
        · rw [List.eq_of_mem_replicate h4]
      · rw [if_neg hrm] at h1
        simp at h1
    · rcases List.mem_cons.mp h2 with h3 | h4
      · rw [h3]
      · rw [List.mem_singleton.mp h4]
  · intro sub e he
    unfold sampleDraws at he
    rcases List.mem_append.mp he with h1 | h2
    · rw [List.mem_singleton.mp h1]
    · by_cases hs : sub = true
      · rw [if_pos hs] at h2
        rw [List.mem_singleton.mp h2]
      · rw [if_neg hs] at h2
        simp at h2

/-- Witness for `construction_draws_owned_outcome_draws_global` at a
concrete run configuration. -/
theorem construction_draws_owned_outcome_draws_global_witness :
    (⟨"self.rng.normal(psi_means, psi_stds)", RngSrc.owned⟩ :
      DrawEvent).src = RngSrc.owned ∧
    (⟨"np.random.binomial(1, expit)", RngSrc.globalG⟩ :
      DrawEvent).src = RngSrc.globalG :=
  ⟨construction_draws_owned_outcome_draws_global.1 false 2 _ (by decide),
   construction_draws_owned_outcome_draws_global.2 true _ (by decide)⟩

/-- A full observation-table row at the sampling stage: the columns built
during construction plus the RI outcome column (`none` until
`sample_observations` writes it). -/
structure SRow where
  core : ORow
  RI : Option Bool
deriving DecidableEq, Repr

instance {e a : Type} [DecidableEq e] [DecidableEq a] :
    DecidableEq (Except e a) := fun x y =>
  match x, y with
  | Except.ok u, Except.ok v =>
    if h : u = v then isTrue (by rw [h])
    else isFalse (by intro hc; cases hc; exact h rfl)
  | Except.error u, Except.error v =>
    if h : u = v then isTrue (by rw [h])
    else isFalse (by intro hc; cases hc; exact h rfl)
  | Except.ok _, Except.error _ => isFalse (fun hc => Except.noConfusion hc)
  | Except.error _, Except.ok _ => isFalse (fun hc => Except.noConfusion hc)

/-- The modelled state of the process-global numpy generator consumed by
one `sample_observations` call: the Bernoulli outcome it produces for
each row position, and the distinct row positions `DataFrame.sample`
selects for a given (population size, sample size). -/
structure GlobalRng where
  binom : Nat → Bool
  sel : Nat → Nat → List Nat

/-- The in-place column write `self.ridata["RI"] = np.random.binomial(1,
self.ridata["expit"])` (generative.py:165): every row receives an RI
outcome from the process-global generator; all other columns are kept. -/
def sampleWithRI (ridata : List SRow) (g : GlobalRng) : List SRow :=
  ridata.enum.map (fun p => { p.2 with RI := some (g.binom p.1) })

/-- `GenerativeBase.sample_observations` (generative.py:160-168): first
(re)writes the RI column of the stored table in place — mutating
`self.ridata` — then, when `nsamples` is truthy (Python `if nsamples:`,
false for `None` and for 0), returns a fresh copy of `nsamples` rows
chosen without replacement by `DataFrame.sample` (which raises a
ValueError when the requested size exceeds the row count); otherwise
returns a copy of the full table.  Returns the new stored table together
with the call's result. -/
def sample_observations (ridata : List SRow) (nsamples : Option Nat)
    (g : GlobalRng) : List SRow × Except PyErr (List SRow) :=
  (sampleWithRI ridata g,
   match nsamples with
   | none => Except.ok (sampleWithRI ridata g)
   | some n =>
     if n = 0 then Except.ok (sampleWithRI ridata g)
     else if (sampleWithRI ridata g).length < n then
       Except.error PyErr.valueError
     else Except.ok ((g.sel (sampleWithRI ridata g).length n).filterMap
       (fun i => (sampleWithRI ridata g).get? i)))

theorem filterMap_get_length {a : Type} (l : List a) (sel : List Nat)
    (h : ∀ i ∈ sel, i < l.length) :
    (sel.filterMap (fun i => l.get? i)).length = sel.length := by
  induction sel with
  | nil => rfl
  | cons x xs ih =>
    have hx : x < l.length := h x (List.mem_cons_self x xs)
    have hxs : ∀ i ∈ xs, i < l.length :=
      fun i hi => h i (List.mem_cons_of_mem x hi)
    have hget : l.get? x = some (l.get ⟨x, hx⟩) := List.get?_eq_get hx
    simp only [List.filterMap_cons, hget, List.length_cons, ih hxs]

theorem sampleWithRI_length (ridata : List SRow) (g : GlobalRng) :
    (sampleWithRI ridata g).length = ridata.length := by
  unfold sampleWithRI
  rw [List.length_map, List.enum_length]

theorem sampleWithRI_core (ridata : List SRow) (g : GlobalRng) :
    (sampleWithRI ridata g).map SRow.core = ridata.map SRow.core := by
  unfold sampleWithRI
  rw [List.map_map]
  rw [show (SRow.core ∘ fun p : Nat × SRow =>
      { p.2 with RI := some (g.binom p.1) }) =
      (SRow.core ∘ Prod.snd) from rfl]
  rw [← List.map_map, List.enum_map_snd]

/-- C6 (amended): for `0 < n ≤ len`, `sample_observations(n)` returns a
fresh table of exactly `n` rows chosen without replacement from the full
table; for `n > len` it fails with pandas ValueError (the repository
defines no `InvalidSampleSize`); the stored table keeps all its rows and
all its non-RI columns unchanged (it is never truncated), but the call
does mutate it by (re)drawing the RI column. -/
theorem sample_observations_behaviour :
    (∀ (tbl : List SRow) (n : Nat) (g : GlobalRng), 0 < n → n ≤ tbl.length →
      (g.sel tbl.length n).length = n →
      (∀ i ∈ g.sel tbl.length n, i < tbl.length) →
      ∃ rows, (sample_observations tbl (some n) g).2 = Except.ok rows ∧
        rows.length = n) ∧
    (∀ (tbl : List SRow) (n : Nat) (g : GlobalRng), tbl.length < n →
      (sample_observations tbl (some n) g).2 =
        Except.error PyErr.valueError) ∧
    (∀ (tbl : List SRow) (ns : Option Nat) (g : GlobalRng),
      ((sample_observations tbl ns g).1).map SRow.core = tbl.map SRow.core ∧
      ((sample_observations tbl ns g).1).length = tbl.length) := by
  refine ⟨?_, ?_, ?_⟩
  · intro tbl n g hn hle hsellen hselok
    have hne : ¬ n = 0 := by omega
    have hnlt : ¬ ((sampleWithRI tbl g).length < n) := by
      rw [sampleWithRI_length]
      omega
    refine ⟨(g.sel (sampleWithRI tbl g).length n).filterMap
      (fun i => (sampleWithRI tbl g).get? i), ?_, ?_⟩
    · simp only [sample_observations, if_neg hne, if_neg hnlt]
    · rw [filterMap_get_length _ _ ?_]
      · rw [sampleWithRI_length, hsellen]
      · intro i hi
        rw [sampleWithRI_length]
        exact hselok i (by rwa [sampleWithRI_length] at hi)
  · intro tbl n g hlt
    have hne : ¬ n = 0 := by omega
    have hnlt : (sampleWithRI tbl g).length < n := by
      rw [sampleWithRI_length]
      omega
    simp only [sample_observations, if_neg hne, if_pos hnlt]
  · intro tbl ns g
    exact ⟨sampleWithRI_core tbl g, sampleWithRI_length tbl g⟩

/-- A concrete two-row table with no outcomes drawn yet. -/
def tbl2 : List SRow :=
  [⟨⟨0, 0, 0⟩, none⟩, ⟨⟨0, 1, 1⟩, none⟩]

/-- A concrete state of the process-global generator. -/
def gFixed : GlobalRng :=
  { binom := fun _ => true, sel := fun _ n => List.range n }

/-- C6 counterexample: `sample_observations` mutates the stored table
(the RI column is rewritten, so the post-call table differs from the
source), the error raised for an oversized request is pandas ValueError
(no `InvalidSampleSize` exists in the repository), and a requested size
of 0 — claimed to return 0 rows — returns the full 2-row table because
`if nsamples:` treats 0 as false. -/
theorem sample_observations_claim_cex :
    (sample_observations tbl2 (some 1) gFixed).1 ≠ tbl2 ∧
    (sample_observations tbl2 (some 5) gFixed).2 =
      Except.error PyErr.valueError ∧
    (sample_observations tbl2 (some 0) gFixed).2 =
      Except.ok ((sample_observations tbl2 (some 0) gFixed).1) ∧
    ((sample_observations tbl2 (some 0) gFixed).1).length = 2 := by
  refine ⟨?_, ?_, ?_, ?_⟩ <;> decide

/-- Witness for `sample_observations_behaviour` at the concrete table
`tbl2` with `n = 1` and an oversized request of 5. -/
theorem sample_observations_behaviour_witness :
    (∃ rows, (sample_observations tbl2 (some 1) gFixed).2 =
      Except.ok rows ∧ rows.length = 1) ∧
    ((sample_observations tbl2 (some 5) gFixed).2 =
      Except.error PyErr.valueError) ∧
    ((sample_observations tbl2 none gFixed).1).map SRow.core =
      tbl2.map SRow.core :=
  ⟨sample_observations_behaviour.1 tbl2 1 gFixed (by decide) (by decide)
      (by decide) (by decide),
   sample_observations_behaviour.2.1 tbl2 5 gFixed (by decide),
   (sample_observations_behaviour.2.2 tbl2 none gFixed).1⟩

/-- Tags for the five regression functions of regression.py:11-29. -/
inductive RegFun where
  | linea
  | expon
  | quadr
  | logar
  | asymp
deriving DecidableEq, Repr

/-- The `Models` enumeration (regression.py:32-37): the five names of the
closed enumeration. -/
def modelsEnum : List String :=
  ["linear", "exponential", "quadratic", "logarithmic", "asymptotic"]

/-- `MODEL_DICT` (regression.py:40-46), keys exactly as in the source —
the last key is "asymptotic_func", not "asymptotic". -/
def MODEL_DICT : List (String × RegFun) :=
  [("linear", RegFun.linea), ("exponential", RegFun.expon),
   ("quadratic", RegFun.quadr), ("logarithmic", RegFun.logar),
   ("asymptotic_func", RegFun.asymp)]

/-- The dict lookup `MODEL_DICT[model]` performed by
`GenerativeBase.__init__` (generative.py:32); `none` models the KeyError
a missing key raises. -/
def lookupModel (name : String) : Option RegFun :=
  (MODEL_DICT.find? (fun p => p.1 == name)).map Prod.snd

/-- C7: model selection by name.  The name "asymptotic" belongs to the
`Models` enumeration (and to the docstring of `get_logit`) but is NOT a
key of `MODEL_DICT` (whose fifth key is "asymptotic_func"), so selecting
"asymptotic" raises a KeyError instead of returning the asymptotic
regression function; the other four enumeration names resolve; a name
outside the enumeration ("asymptotic_func" aside) also fails with
KeyError, not with any `UnknownModel` error (which does not exist in the
repository). -/
theorem model_selection_asymptotic_keyerror :
    "asymptotic" ∈ modelsEnum ∧
    lookupModel "asymptotic" = none ∧
    lookupModel "asymptotic_func" = some RegFun.asymp ∧
    (modelsEnum.all
      (fun nm => nm == "asymptotic" || (lookupModel nm).isSome)) = true ∧
    lookupModel "banana" = none := by
  refine ⟨?_, ?_, ?_, ?_, ?_⟩ <;> decide

/-- Extended value domain modelling the numpy float special values that
matter for the regression functions: finite reals, the two infinities,
and nan. -/
inductive NpF where
  | fin : ℝ → NpF
  | pinf
  | ninf
  | nan

/-- IEEE addition on the extended domain (numpy semantics). -/
noncomputable def npAdd : NpF → NpF → NpF
  | NpF.fin x, NpF.fin y => NpF.fin (x + y)
  | NpF.fin _, NpF.pinf => NpF.pinf
  | NpF.pinf, NpF.fin _ => NpF.pinf
  | NpF.pinf, NpF.pinf => NpF.pinf
  | NpF.fin _, NpF.ninf => NpF.ninf
  | NpF.ninf, NpF.fin _ => NpF.ninf
  | NpF.ninf, NpF.ninf => NpF.ninf
  | NpF.pinf, NpF.ninf => NpF.nan
  | NpF.ninf, NpF.pinf => NpF.nan
  | NpF.nan, _ => NpF.nan
  | _, NpF.nan => NpF.nan

/-- IEEE multiplication on the extended domain (numpy semantics). -/
noncomputable def npMul : NpF → NpF → NpF
  | NpF.fin x, NpF.fin y => NpF.fin (x * y)
  | NpF.fin x, NpF.pinf =>
    if 0 < x then NpF.pinf else if x < 0 then NpF.ninf else NpF.nan
  | NpF.pinf, NpF.fin x =>
    if 0 < x then NpF.pinf else if x < 0 then NpF.ninf else NpF.nan
  | NpF.fin x, NpF.ninf =>
    if 0 < x then NpF.ninf else if x < 0 then NpF.pinf else NpF.nan
  | NpF.ninf, NpF.fin x =>
    if 0 < x then NpF.ninf else if x < 0 then NpF.pinf else NpF.nan
  | NpF.pinf, NpF.pinf => NpF.pinf
  | NpF.ninf, NpF.ninf => NpF.pinf
  | NpF.pinf, NpF.ninf => NpF.ninf
  | NpF.ninf, NpF.pinf => NpF.ninf
  | NpF.nan, _ => NpF.nan
  | _, NpF.nan => NpF.nan

/-- Modelled from numpy's documented `np.log`: `log(0)` evaluates to
negative infinity (emitting a RuntimeWarning, not raising), a negative
argument gives nan, a positive argument the real logarithm. -/
noncomputable def npLog : NpF → NpF
  | NpF.fin x =>
    if x = 0 then NpF.ninf
    else if x < 0 then NpF.nan
    else NpF.fin (Real.log x)
  | NpF.pinf => NpF.pinf
  | NpF.ninf => NpF.nan
  | NpF.nan => NpF.nan

/-- `logar_f` (regression.py:23-25):
`intercept + velocity * np.log(distance)`; the declared default for
`intercept` is 1e-9. -/
noncomputable def logar_f (velocity distance intercept : NpF) : NpF :=
  npAdd intercept (npMul velocity (npLog distance))

/-- The default intercept of `logar_f` (regression.py:23). -/
noncomputable def logar_default_intercept : NpF := NpF.fin (1 / 10 ^ 9)

/-- C8 counterexample: applying `logar_f` to `dist = 0` with the default
epsilon intercept and a positive velocity yields negative infinity — the
epsilon intercept is merely added to `velocity * log(0) = -inf` and does
not produce a finite epsilon-based score for the zero-distance case. -/
theorem logar_epsilon_not_used_cex :
    logar_f (NpF.fin 10) (NpF.fin 0) logar_default_intercept = NpF.ninf ∧
    NpF.ninf ≠ NpF.fin (1 / 10 ^ 9) := by
  constructor
  · norm_num [logar_f, logar_default_intercept, npLog, npMul, npAdd]
  · intro h
    exact NpF.noConfusion h

/-- C8 (amended): `logar_f` at `dist = 0` raises no error — it is a total
function and `np.log(0)` evaluates to negative infinity — but the
computed score is `-inf` for every positive velocity and every (finite)
intercept: the 1e-9 default intercept is only an additive term and does
not guard the `log(0)` domain. -/
theorem logar_zero_distance_neginf :
    ∀ (v i : ℝ), 0 < v →
      logar_f (NpF.fin v) (NpF.fin 0) (NpF.fin i) = NpF.ninf := by
  intro v i hv
  norm_num [logar_f, npLog, npMul, npAdd, hv]

/-- Witness for `logar_zero_distance_neginf` at velocity 10 and the
default intercept value. -/
theorem logar_zero_distance_neginf_witness :
    logar_f (NpF.fin 10) (NpF.fin 0) (NpF.fin (1 / 10 ^ 9)) = NpF.ninf :=
  logar_zero_distance_neginf 10 (1 / 10 ^ 9) (by norm_num)

/-- `scipy.special.expit` (generative.py:158): the standard logistic
function over the reals. -/
noncomputable def expit (x : ℝ) : ℝ := 1 / (1 + Real.exp (-x))

/-- pandas `Series.mean`. -/
noncomputable def seriesMean (l : List ℝ) : ℝ := l.sum / l.length

/-- pandas `Series.std`: the sample standard deviation (ddof = 1). -/
noncomputable def seriesStd (l : List ℝ) : ℝ :=
  Real.sqrt ((l.map (fun v => (v - seriesMean l) ^ 2)).sum /
    ((l.length : ℝ) - 1))

/-- The centering transform of `get_logit` (generative.py:157):
`values - values.mean() / values.std()` — by Python operator precedence
only the mean term is divided by the standard deviation. -/
noncomputable def centerShift (values : List ℝ) : List ℝ :=
  values.map (fun v => v - seriesMean values / seriesStd values)

/-- Stated from the claim's words (C9) for comparison: full z-scoring
`(score - mean) / std`. -/
noncomputable def zscoreSpec (values : List ℝ) : List ℝ :=
  values.map (fun v => (v - seriesMean values) / seriesStd values)

/-- `GenerativeBase.get_logit` (generative.py:142-158): apply the
selected regression function elementwise to `(joint_velo, dist)`, apply
the centering transform, and store the logistic of the result in the
`expit` column. -/
noncomputable def get_logit (f : ℝ → ℝ → ℝ) (velo dist : List ℝ) :
    List ℝ :=
  (centerShift (List.zipWith f velo dist)).map expit

theorem expit_pos (x : ℝ) : 0 < expit x := by
  unfold expit
  have hexp := Real.exp_pos (-x)
  positivity

theorem expit_lt_one (x : ℝ) : expit x < 1 := by
  unfold expit
  have hexp := Real.exp_pos (-x)
  rw [div_lt_one (by linarith)]
  linarith

/-- C9: the score stage applies the selected regression function to
`(joint_velo, dist)`, then the asymmetric centering transform
`score - mean(score)/std(score)` (division applies to the mean term
only — on the concrete input [0, 1] this differs from full z-scoring),
and the expit column is the logistic of the transformed score, so every
expit value lies strictly within (0, 1). -/
theorem expit_column_strictly_in_unit_interval :
    (∀ (f : ℝ → ℝ → ℝ) (velo dist : List ℝ),
      get_logit f velo dist =
        ((List.zipWith f velo dist).map
          (fun v => v - seriesMean (List.zipWith f velo dist) /
            seriesStd (List.zipWith f velo dist))).map expit) ∧
    (∀ (f : ℝ → ℝ → ℝ) (velo dist : List ℝ),
      ∀ y ∈ get_logit f velo dist, 0 < y ∧ y < 1) ∧
    centerShift [0, 1] ≠ zscoreSpec [0, 1] := by
  refine ⟨fun f velo dist => rfl, ?_, ?_⟩
  · intro f velo dist y hy
    rcases List.mem_map.mp hy with ⟨x, _, hx⟩
    rw [← hx]
    exact ⟨expit_pos x, expit_lt_one x⟩
  · intro heq
    have hm : seriesMean [0, 1] = 1 / 2 := by
      unfold seriesMean
      norm_num
    have hs : seriesStd [0, 1] = Real.sqrt (1 / 2) := by
      unfold seriesStd
      rw [hm]
      norm_num
    have hcomp : (1 : ℝ) - seriesMean [0, 1] / seriesStd [0, 1] =
        (1 - seriesMean [0, 1]) / seriesStd [0, 1] := by
      unfold centerShift zscoreSpec at heq
      simp only [List.map_cons, List.map_nil, List.cons.injEq] at heq
      exact heq.2.1
    rw [hm, hs] at hcomp
    have hpos : 0 < Real.sqrt (1 / 2) := Real.sqrt_pos.mpr (by norm_num)
    have hsq : Real.sqrt (1 / 2) ^ 2 = 1 / 2 :=
      Real.sq_sqrt (by norm_num)
    have hne := ne_of_gt hpos
    field_simp at hcomp
    have hsq2 : Real.sqrt 2 ^ 2 = 2 := Real.sq_sqrt (by norm_num)
    nlinarith [hsq2, Real.sqrt_nonneg 2, hcomp]

/-- Witness for `expit_column_strictly_in_unit_interval` at a concrete
regression function and single-row input. -/
theorem expit_column_strictly_in_unit_interval_witness :
    0 < expit (1 - seriesMean [(1 : ℝ)] / seriesStd [(1 : ℝ)]) ∧
    expit (1 - seriesMean [(1 : ℝ)] / seriesStd [(1 : ℝ)]) < 1 :=
  expit_column_strictly_in_unit_interval.2.1 (fun v _ => v) [1] [1]
    (expit (1 - seriesMean [(1 : ℝ)] / seriesStd [(1 : ℝ)]))
    (by simp [get_logit, centerShift, List.zipWith])
